import Mathlib

/-!
Shallow embedding of the ORMI IndexedDB object-mapping layer
(src/model/Model.js, src/db/DB.js, src/migration/Migration.js) and proofs
about its migration engine, record registry and query/persistence surface.

Conventions of the embedding:
* A table is a `List Rec`: the records currently stored in one object store.
  Each record carries its primary key `_id` (an integer, see `Model`'s
  `set id(value) { this._id = parseInt(value) }`) and its other own fields.
* Asynchronous methods returning a `Promise` are embedded as pure functions
  returning their resolution value, with `Except` for rejection.
* The store's `id` index is the index created by `MigrationVersion.run` via
  `table.createIndex(task.key, '_' + task.key)` on the primary-key path, so
  an ascending cursor over it enumerates records in increasing `_id` order.
-/

set_option autoImplicit false

/-- A raw record persisted in one object store: its primary key `_id` plus the
remaining own fields (field name, field value). -/
structure Rec where
  id : Int
  fields : List (String × Int)
deriving DecidableEq

/-- A model instance, as produced by `Model.instantiate`: `none` stands for the
empty instance `new this()` (no own properties), `some r` for `new this(obj)`
whose constructor copies the raw record `obj`'s fields onto the instance. -/
def Inst : Type := Option Rec

deriving instance DecidableEq for Inst

/-- `Model.prototype.isEmpty`: `Object.keys(this).length === 0` — exactly the
instances built by the zero-argument constructor have no own properties. -/
def Model.isEmpty (i : Inst) : Bool :=
  match i with
  | none => true
  | some _ => false

/-- `DB.getByIndex(table, 'id', key)`, i.e. `connection.getFromIndex`: the first
record in the store whose `id` index value equals `key`; resolves `undefined`
(`none`) when no record matches. The `id` index is on the primary key `_id`. -/
def DB.getByIndex (t : List Rec) (key : Int) : Option Rec :=
  t.find? (fun r => r.id == key)

/-- `Model.instantiate(object = null)`: a `null` (or absent, i.e. `undefined` —
JS default parameters replace `undefined` by the default `null`) record yields
the empty instance `new this()`; a present record yields an instance populated
from it. -/
def Model.instantiate (object : Option Rec) : Inst :=
  match object with
  | some o => some o
  | none => none

/-- `Model.get(id, index = 'id')` on the default `id` index: fetch by index,
then `instantiate` the result. -/
def Model.get (t : List Rec) (id : Int) : Inst :=
  Model.instantiate (DB.getByIndex t id)

/-- `Model.exists(id)` (static): `!(await this.get(id)).isEmpty()`. -/
def Model.existsId (t : List Rec) (id : Int) : Bool :=
  ! Model.isEmpty (Model.get t id)

/-- The record an ascending cursor over the `id` index delivers first: the
record with the minimal `_id` (ties — impossible for a primary key — resolve
to the earlier record). This is `DB.getMinFromIndex(table, 'id')`'s
`cursor.value`, `null` (`none`) on an empty table. -/
def DB.minById : List Rec → Option Rec
  | [] => none
  | r :: rs =>
    match DB.minById rs with
    | none => some r
    | some m => if r.id ≤ m.id then some r else some m

/-- `Model.first(index = 'id')` on the default `id` index:
`instantiate(obj ? obj.value : null)` over the ascending cursor. -/
def Model.first (t : List Rec) : Inst :=
  Model.instantiate (DB.minById t)

/-- `Model.nextNewId()`: `first()` then
`if (first.isEmpty()) return -1; return first.id >= 0 ? -1 : first.id - 1;`. -/
def Model.nextNewId (t : List Rec) : Int :=
  match Model.first t with
  | none => -1
  | some r => if 0 ≤ r.id then -1 else r.id - 1

theorem Model.instantiate_eq (o : Option Rec) : Model.instantiate o = o := by
  cases o <;> rfl

theorem Model.nextNewId_of_first_none {t : List Rec}
    (hm : Model.first t = none) : Model.nextNewId t = -1 := by
  rw [Model.nextNewId, hm]

theorem Model.nextNewId_of_first_some {t : List Rec} {m : Rec}
    (hm : Model.first t = some m) :
    Model.nextNewId t = if 0 ≤ m.id then -1 else m.id - 1 := by
  rw [Model.nextNewId, hm]

theorem Model.first_eq (t : List Rec) : Model.first t = DB.minById t := by
  rw [Model.first, Model.instantiate_eq]

theorem Model.get_eq (t : List Rec) (id : Int) :
    Model.get t id = DB.getByIndex t id := by
  rw [Model.get, Model.instantiate_eq]

theorem DB.minById_cons_nil (r : Rec) {rs : List Rec}
    (h : DB.minById rs = none) : DB.minById (r :: rs) = some r := by
  unfold DB.minById
  rw [h]

theorem DB.minById_cons_le (r : Rec) {rs : List Rec} {m : Rec}
    (h : DB.minById rs = some m) (hle : r.id ≤ m.id) :
    DB.minById (r :: rs) = some r := by
  unfold DB.minById
  rw [h]
  simp [hle]

theorem DB.minById_cons_gt (r : Rec) {rs : List Rec} {m : Rec}
    (h : DB.minById rs = some m) (hgt : ¬ r.id ≤ m.id) :
    DB.minById (r :: rs) = some m := by
  unfold DB.minById
  rw [h]
  simp [hgt]

theorem DB.minById_eq_none {t : List Rec} : DB.minById t = none ↔ t = [] := by
  cases t with
  | nil => simp [DB.minById]
  | cons r rs =>
    constructor
    · intro h
      cases hrs : DB.minById rs with
      | none => rw [DB.minById_cons_nil r hrs] at h; exact absurd h (by simp)
      | some m =>
        by_cases hle : r.id ≤ m.id
        · rw [DB.minById_cons_le r hrs hle] at h; exact absurd h (by simp)
        · rw [DB.minById_cons_gt r hrs hle] at h; exact absurd h (by simp)
    · intro h
      exact absurd h (List.cons_ne_nil r rs)

theorem DB.minById_le (t : List Rec) :
    ∀ m : Rec, DB.minById t = some m → ∀ x ∈ t, m.id ≤ x.id := by
  induction t with
  | nil => intro m hm; simp [DB.minById] at hm
  | cons r rs ih =>
    intro m hm x hx
    rcases List.mem_cons.mp hx with hx | hx
    · subst hx
      cases hrs : DB.minById rs with
      | none =>
        rw [DB.minById_cons_nil x hrs] at hm
        simp only [Option.some.injEq] at hm
        subst hm; exact le_refl _
      | some m0 =>
        by_cases hle : x.id ≤ m0.id
        · rw [DB.minById_cons_le x hrs hle] at hm
          simp only [Option.some.injEq] at hm
          subst hm; exact le_refl _
        · rw [DB.minById_cons_gt x hrs hle] at hm
          simp only [Option.some.injEq] at hm
          subst hm; omega
    · cases hrs : DB.minById rs with
      | none =>
        rw [DB.minById_eq_none.mp hrs] at hx
        exact absurd hx (List.not_mem_nil x)
      | some m0 =>
        have h0 := ih m0 hrs x hx
        by_cases hle : r.id ≤ m0.id
        · rw [DB.minById_cons_le r hrs hle] at hm
          simp only [Option.some.injEq] at hm
          subst hm; omega
        · rw [DB.minById_cons_gt r hrs hle] at hm
          simp only [Option.some.injEq] at hm
          subst hm; exact h0

/-- C2: `nextNewId` returns −1 on an empty table; returns −1 when the minimal
id is ≥ 0; returns `m − 1` when the minimal id is `m < 0`; the returned id
never collides with an id already in the table; and after storing a record
carrying the returned id, the next call returns one less — successive local
ids are strictly decreasing. -/
theorem nextNewId_spec (t : List Rec) :
    (t = [] → Model.nextNewId t = -1) ∧
    (∀ m : Rec, Model.first t = some m → 0 ≤ m.id → Model.nextNewId t = -1) ∧
    (∀ m : Rec, Model.first t = some m → m.id < 0 →
      Model.nextNewId t = m.id - 1) ∧
    (∀ r ∈ t, r.id ≠ Model.nextNewId t) ∧
    (∀ r' : Rec, r'.id = Model.nextNewId t →
      Model.nextNewId (r' :: t) = Model.nextNewId t - 1) := by
  refine ⟨?_, ?_, ?_, ?_, ?_⟩
  · intro h; subst h; rfl
  · intro m hm h0
    rw [Model.nextNewId, hm]
    simp [h0]
  · intro m hm hneg
    rw [Model.nextNewId, hm]
    have h0 : ¬ (0 ≤ m.id) := by omega
    simp [h0]
  · intro r hr
    rw [Model.nextNewId]
    cases hm : Model.first t with
    | none =>
      rw [Model.first_eq] at hm
      rw [DB.minById_eq_none.mp hm] at hr
      exact absurd hr (List.not_mem_nil r)
    | some m =>
      rw [Model.first_eq] at hm
      have hle := DB.minById_le t m hm r hr
      by_cases h0 : 0 ≤ m.id
      · simp only [if_pos h0]; omega
      · simp only [if_neg h0]; omega
  · intro r' hr'
    have hneg : Model.nextNewId t < 0 := by
      cases hm : Model.first t with
      | none => rw [Model.nextNewId_of_first_none hm]; omega
      | some m =>
        rw [Model.nextNewId_of_first_some hm]
        by_cases h0 : 0 ≤ m.id
        · rw [if_pos h0]; omega
        · rw [if_neg h0]; omega
    have hfirst : Model.first (r' :: t) = some r' := by
      rw [Model.first_eq]
      cases hm : DB.minById t with
      | none => exact DB.minById_cons_nil r' hm
      | some m =>
        by_cases hle : r'.id ≤ m.id
        · exact DB.minById_cons_le r' hm hle
        · -- the fresh id is −1 or min−1, always ≤ the current minimum
          exfalso
          rw [Model.nextNewId_of_first_some (Model.first_eq t ▸ hm)] at hr'
          by_cases h0 : 0 ≤ m.id
          · rw [if_pos h0] at hr'; omega
          · rw [if_neg h0] at hr'; omega
    rw [Model.nextNewId_of_first_some hfirst]
    have h0 : ¬ (0 ≤ r'.id) := by omega
    rw [if_neg h0, hr']

/-- Witness for C2 at the spec's own example: on a table whose minimal id is
−3, `nextNewId` returns −4. -/
theorem nextNewId_spec_witness :
    Model.nextNewId [⟨-3, []⟩, ⟨5, []⟩] = (-3 : Int) - 1 :=
  (nextNewId_spec [⟨-3, []⟩, ⟨5, []⟩]).2.2.1 ⟨-3, []⟩ rfl (by decide)

/-- C5: `get` on an absent id resolves to the empty instance; `exists(id)` is
true exactly when `get(id)` is non-empty; a present id yields a non-empty
instance. -/
theorem get_empty_exists_spec (t : List Rec) (id : Int) :
    (DB.getByIndex t id = none → Model.isEmpty (Model.get t id) = true) ∧
    (Model.existsId t id = true ↔ Model.isEmpty (Model.get t id) = false) ∧
    ((∃ r ∈ t, r.id = id) → Model.isEmpty (Model.get t id) = false) := by
  refine ⟨?_, ?_, ?_⟩
  · intro h
    rw [Model.get_eq, h]
    rfl
  · rw [Model.existsId]
    cases Model.get t id with
    | none => simp [Model.isEmpty]
    | some r => simp [Model.isEmpty]
  · rintro ⟨r, hr, hid⟩
    have hsome : (t.find? (fun x => x.id == id)).isSome := by
      rw [List.find?_isSome]
      exact ⟨r, hr, by simp [hid]⟩
    obtain ⟨y, hy⟩ := Option.isSome_iff_exists.mp hsome
    rw [Model.get_eq, DB.getByIndex, hy]
    rfl

/-- Witness for C5: on the table `[{_id: 5}]`, id 5 exists and yields a
non-empty instance. -/
theorem get_empty_exists_witness :
    Model.isEmpty (Model.get [⟨5, []⟩] 5) = false :=
  (get_empty_exists_spec [⟨5, []⟩] 5).2.2 ⟨⟨5, []⟩, by simp, rfl⟩

/-- Errors observable from the embedded JS runtime: calling a missing method
(`TypeError`) and an IndexedDB request with an invalid (`undefined`) key
(`DataError`). -/
inductive JsError where
  | typeError
  | dataError
deriving DecidableEq

/-- The runtime value of a JS expression inside `Model`'s static `remove`:
either a `Promise` (what `this.get(id, index)` returns — `get` is not awaited
there) or an actual `Model` instance. -/
inductive JsValue where
  | vPromise (resolvesTo : Inst)
  | vInstance (inst : Inst)

/-- The value of the expression `this.get(id, index)`: `get` returns the
promise of the instantiated record (`Model.get` above), not the instance. -/
def Model.getExpr (t : List Rec) (id : Int) : JsValue :=
  JsValue.vPromise (Model.get t id)

/-- `Model.prototype.remove()` on an actual instance:
`this.constructor.db.remove(this)` = `connection.delete(table, this.id)`.
An empty instance has no `_id`, and `delete` with an `undefined` key throws
a `DataError`. -/
def Model.removeInstance (t : List Rec) (inst : Inst) : Except JsError (List Rec) :=
  match inst with
  | some r => Except.ok (t.filter (fun x => ! (x.id == r.id)))
  | none => Except.error JsError.dataError

/-- Dispatch of the method call `instance.remove()` on a runtime value:
`Promise.prototype` has no `remove` method, so the call on a promise throws
`TypeError`; on an instance it runs `Model.prototype.remove`. -/
def JsValue.callRemove (t : List Rec) (v : JsValue) : Except JsError (List Rec) :=
  match v with
  | JsValue.vPromise _ => Except.error JsError.typeError
  | JsValue.vInstance i => Model.removeInstance t i

/-- `Model.remove(id, index = 'id')` (static):
`let instance = this.get(id, index); return instance.remove();`. -/
def Model.removeStatic (t : List Rec) (id : Int) : Except JsError (List Rec) :=
  JsValue.callRemove t (Model.getExpr t id)

/-- C4: the static `remove` never reaches the delete: `this.get(id, index)` is
not awaited, so `instance` is a `Promise` and `instance.remove()` throws a
`TypeError` — both for a present id (5 in a one-record table) and for an
absent one (7 in the empty table), where the claim demands an error-free
no-op. -/
theorem remove_static_type_error :
    Model.removeStatic [⟨5, [("color", 1)]⟩] 5 = Except.error JsError.typeError ∧
    Model.removeStatic [] 7 = Except.error JsError.typeError :=
  ⟨rfl, rfl⟩

/-- Failure of a single `tx.store.add(e)` request: adding a record whose
primary key already exists violates the store's key constraint. -/
inductive StoreErr where
  | constraintError (key : Int)
deriving DecidableEq

/-- One `tx.store.add(e)` inside the write transaction: fails with a
`ConstraintError` when the key is already present (in the store or added
earlier in the same transaction), otherwise appends the record. -/
def DB.addRec (t : List Rec) (r : Rec) : Except StoreErr (List Rec) :=
  if t.any (fun x => x.id == r.id) then Except.error (StoreErr.constraintError r.id)
  else Except.ok (t ++ [r])

/-- The write transaction of `DB.store`: the `add` requests issued by
`array.map(e => tx.store.add(e))` execute in order against the same
transaction; the first failing request aborts the transaction (rolling back
every earlier add), and `tx.done` then rejects with that request's error. -/
def DB.runAdds (t : List Rec) : List Rec → Except StoreErr (List Rec)
  | [] => Except.ok t
  | r :: rs =>
    match DB.addRec t r with
    | Except.ok u => DB.runAdds u rs
    | Except.error e => Except.error e

/-- `DB.store(table, array)`: one write transaction, one `add` per element,
resolving `tx.done`. -/
def DB.store (t : List Rec) (array : List Rec) : Except StoreErr (List Rec) :=
  DB.runAdds t array

/-- `Model.store(objs)` (static): `this.db.store(this.table_name, objs)`. -/
def Model.store (t : List Rec) (objs : List Rec) : Except StoreErr (List Rec) :=
  DB.store t objs

/-- `Model.prototype.save()`: pushes `this` into a fresh array and stores the
single-element batch. -/
def Model.save (t : List Rec) (inst : Rec) : Except StoreErr (List Rec) :=
  Model.store t [inst]

theorem DB.addRec_ok {t : List Rec} {r : Rec} {u : List Rec}
    (h : DB.addRec t r = Except.ok u) : u = t ++ [r] := by
  unfold DB.addRec at h
  split at h
  · simp at h
  · injection h with h2
    exact h2.symm

theorem take_cons_state (t : List Rec) (r : Rec) (rs : List Rec) (k : Nat) :
    t ++ (r :: rs).take (k + 1) = (t ++ [r]) ++ rs.take k := by
  simp

theorem DB.runAdds_spec (array : List Rec) : ∀ t : List Rec,
    (∀ u, DB.runAdds t array = Except.ok u → u = t ++ array) ∧
    (∀ e, DB.runAdds t array = Except.error e → ∃ k, ∃ hk : k < array.length,
      DB.addRec (t ++ array.take k) array[k] = Except.error e ∧
      ∀ j, ∀ hj : j < array.length, j < k →
        ∃ u, DB.addRec (t ++ array.take j) array[j] = Except.ok u) := by
  induction array with
  | nil =>
    intro t
    constructor
    · intro u h
      have h' : (Except.ok t : Except StoreErr (List Rec)) = Except.ok u := h
      injection h' with h2
      simp [← h2]
    · intro e h
      exact Except.noConfusion h
  | cons r rs ih =>
    intro t
    constructor
    · intro u h
      simp only [DB.runAdds] at h
      cases ha : DB.addRec t r with
      | ok u0 =>
        rw [ha] at h
        have h' : DB.runAdds u0 rs = Except.ok u := h
        have hu0 := DB.addRec_ok ha
        have hu := (ih u0).1 u h'
        subst hu0
        simpa using hu
      | error e0 =>
        rw [ha] at h
        exact Except.noConfusion h
    · intro e h
      simp only [DB.runAdds] at h
      cases ha : DB.addRec t r with
      | error e0 =>
        rw [ha] at h
        have h' : (Except.error e0 : Except StoreErr (List Rec)) = Except.error e := h
        injection h' with h2
        subst h2
        refine ⟨0, by simp, by simpa using ha, ?_⟩
        intro j hj hj0
        omega
      | ok u0 =>
        rw [ha] at h
        have h' : DB.runAdds u0 rs = Except.error e := h
        have hu0 := DB.addRec_ok ha
        obtain ⟨k, hk, hfail, hpre⟩ := (ih u0).2 e h'
        subst hu0
        refine ⟨k + 1, by simpa using Nat.succ_lt_succ hk, ?_, ?_⟩
        · rw [take_cons_state, List.getElem_cons_succ]
          exact hfail
        · intro j hj hjk
          cases j with
          | zero =>
            refine ⟨t ++ [r], ?_⟩
            simpa using ha
          | succ j' =>
            have hj' : j' < rs.length := by simpa using hj
            obtain ⟨u, hu⟩ := hpre j' hj' (by omega)
            refine ⟨u, ?_⟩
            rw [take_cons_state, List.getElem_cons_succ]
            exact hu

/-- C6: the batch store issues one insert per record against a single write
transaction; it resolves (with the table extended by every record, in order)
only when every insert succeeded, and otherwise rejects with the error of the
first failing insert, all earlier inserts having succeeded; `save()` stores
the instance as a single-element batch. -/
theorem store_firstFailure (t array : List Rec) :
    (∀ u, DB.store t array = Except.ok u → u = t ++ array) ∧
    (∀ e, DB.store t array = Except.error e → ∃ k, ∃ hk : k < array.length,
      DB.addRec (t ++ array.take k) array[k] = Except.error e ∧
      ∀ j, ∀ hj : j < array.length, j < k →
        ∃ u, DB.addRec (t ++ array.take j) array[j] = Except.ok u) ∧
    (∀ inst : Rec, Model.save t inst = DB.store t [inst]) :=
  ⟨(DB.runAdds_spec array t).1, (DB.runAdds_spec array t).2, fun _ => rfl⟩

/-- Witness for C6: saving one record into the empty store yields exactly that
record. -/
theorem store_firstFailure_witness :
    ([⟨1, []⟩] : List Rec) = [] ++ [⟨1, []⟩] :=
  (store_firstFailure [] [⟨1, []⟩]).1 [⟨1, []⟩] rfl

/-- A schema-change task pushed onto a `MigrationVersion`'s task list, tagged
as in `#TYPE_OF_TASK` (`new_table` or `new_index`). -/
inductive SchemaTask where
  | new_table (table : String) (key : String) (autoincrement : Bool)
      (indexes : List String)
  | new_index (table : String) (indexes : List String)
deriving DecidableEq

/-- A `MigrationVersion`: its assigned `_version` and its ordered task list. -/
structure MigrationVersion where
  version : Int
  tasks : List SchemaTask
deriving DecidableEq

/-- The migration-relevant state of a `DB` instance: `#_nombre`, the running
`#_version` counter, and the appended `#_migrations`. -/
structure DBState where
  nombre : String
  version : Int
  migrations : List MigrationVersion
deriving DecidableEq

/-- `DB.addMigration(migration)`: `migration.version = this.#version;
this.#version++; this.#_migrations.push(migration);`. -/
def DB.addMigration (s : DBState) (m : MigrationVersion) : DBState :=
  { s with
    version := s.version + 1,
    migrations := s.migrations ++ [{ m with version := s.version }] }

/-- Appending a whole sequence of steps with `addMigration`, left to right. -/
def DB.appendAll (s : DBState) (ms : List MigrationVersion) : DBState :=
  ms.foldl DB.addMigration s

/-- A `DB` built by `new DB(nombre, base)` followed by `addMigration` for each
step of `ms` in order. -/
def DB.buildFrom (nom : String) (base : Int) (ms : List MigrationVersion) :
    DBState :=
  DB.appendAll ⟨nom, base, []⟩ ms

/-- `DB.migrar(db, old_version, new_version, transaction)`: the steps whose
`run` is invoked, in iteration order — those with
`old_version < migration.version - 1`. -/
def DB.migrar (s : DBState) (old_version : Int) : List MigrationVersion :=
  s.migrations.filter (fun m => decide (old_version < m.version - 1))

/-- `Migration.prototype.run(db, oldVersion, newVersion, transaction)` over the
`Migration` class's own step list: invokes the steps with
`oldVersion < migration.version`, in iteration order. -/
def Migration.run (migrations : List MigrationVersion) (oldVersion : Int) :
    List MigrationVersion :=
  migrations.filter (fun m => decide (oldVersion < m.version))

/-- The data `DB.connect` hands to `idb.openDB`: the store name, the target
version, and the migrations driving the upgrade callback. -/
structure OpenCall where
  nombre : String
  version : Int
  migrations : List MigrationVersion
deriving DecidableEq

/-- `connect()` rejection: `new Error('No me asignaste ninguna migración.')`. -/
inductive ConnectErr where
  | noMigrations
deriving DecidableEq

/-- `DB.connect()`: opens the store only when `#migrations.length > 0`,
otherwise throws without touching the store. -/
def DB.connect (s : DBState) : Except ConnectErr OpenCall :=
  if 0 < s.migrations.length then
    Except.ok ⟨s.nombre, s.version, s.migrations⟩
  else Except.error ConnectErr.noMigrations

/-- The versions `addMigration` assigns to a block of steps appended while the
counter starts at `v`: `v, v+1, v+2, …`. -/
def assignVersions (v : Int) : List MigrationVersion → List MigrationVersion
  | [] => []
  | m :: ms => { m with version := v } :: assignVersions (v + 1) ms

theorem assignVersions_length (v : Int) (ms : List MigrationVersion) :
    (assignVersions v ms).length = ms.length := by
  induction ms generalizing v with
  | nil => rfl
  | cons m ms ih => simp [assignVersions, ih]

theorem assignVersions_getElem (ms : List MigrationVersion) : ∀ (v : Int)
    (k : Nat) (hk : k < (assignVersions v ms).length),
    ((assignVersions v ms)[k]).version = v + k := by
  induction ms with
  | nil => intro v k hk; simp [assignVersions] at hk
  | cons m ms ih =>
    intro v k hk
    cases k with
    | zero => simp [assignVersions]
    | succ k' =>
      have hk' : k' < (assignVersions (v + 1) ms).length := by
        simpa [assignVersions] using hk
      simp only [assignVersions, List.getElem_cons_succ]
      rw [ih (v + 1) k' hk']
      push_cast
      omega

theorem DB.appendAll_eq (ms : List MigrationVersion) : ∀ s : DBState,
    (DB.appendAll s ms).migrations =
      s.migrations ++ assignVersions s.version ms ∧
    (DB.appendAll s ms).version = s.version + ms.length := by
  induction ms with
  | nil => intro s; simp [DB.appendAll, assignVersions]
  | cons m ms ih =>
    intro s
    have h1 : DB.appendAll s (m :: ms) = DB.appendAll (DB.addMigration s m) ms := by
      simp [DB.appendAll]
    rw [h1]
    obtain ⟨hm, hv⟩ := ih (DB.addMigration s m)
    constructor
    · rw [hm]
      simp [DB.addMigration, assignVersions, List.append_assoc]
    · rw [hv]
      simp only [DB.addMigration, List.length_cons]
      push_cast
      omega

/-- C9: starting from base version `b`, the k-th appended step (0-based here:
k = 0, 1, …) is assigned version `b + k` at the moment it is appended, the
counter after `n` appends is `b + n`, step versions are strictly increasing in
append order, and appending one more step extends the list without touching
the versions already assigned. -/
theorem addMigration_versions (nom : String) (base : Int)
    (ms : List MigrationVersion) :
    (DB.buildFrom nom base ms).version = base + ms.length ∧
    (DB.buildFrom nom base ms).migrations.length = ms.length ∧
    (∀ k, ∀ hk : k < (DB.buildFrom nom base ms).migrations.length,
      ((DB.buildFrom nom base ms).migrations[k]).version = base + k) ∧
    (∀ i j, ∀ hi : i < (DB.buildFrom nom base ms).migrations.length,
      ∀ hj : j < (DB.buildFrom nom base ms).migrations.length, i < j →
      ((DB.buildFrom nom base ms).migrations[i]).version <
        ((DB.buildFrom nom base ms).migrations[j]).version) ∧
    (∀ m, (DB.addMigration (DB.buildFrom nom base ms) m).migrations =
      (DB.buildFrom nom base ms).migrations ++
        [{ m with version := (DB.buildFrom nom base ms).version }]) := by
  obtain ⟨hm, hv⟩ := DB.appendAll_eq ms ⟨nom, base, []⟩
  have hmig : (DB.buildFrom nom base ms).migrations = assignVersions base ms := by
    simpa using hm
  refine ⟨hv, ?_, ?_, ?_, ?_⟩
  · rw [hmig, assignVersions_length]
  · intro k hk
    simp only [hmig] at hk ⊢
    exact assignVersions_getElem ms base k hk
  · intro i j hi hj hij
    simp only [hmig] at hi hj ⊢
    rw [assignVersions_getElem ms base i hi, assignVersions_getElem ms base j hj]
    omega
  · intro m
    rfl

/-- Witness for C9: base version 1, two appended steps — the second (k = 1)
carries version 2. -/
theorem addMigration_versions_witness :
    ((DB.buildFrom "db" 1 [⟨0, []⟩, ⟨0, []⟩]).migrations.get
      ⟨1, by decide⟩).version = 1 + (1 : Nat) :=
  (addMigration_versions "db" 1 [⟨0, []⟩, ⟨0, []⟩]).2.2.1 1 (by decide)

/-- C1 (divergence of the connected runner): a DB built with base version 1
and one appended step (assigned version 1) is opened fresh
(`old_version = 0`). `DB.migrar` — the runner `connect` installs — skips the
step (`0 < 1 - 1` is false), while `Migration.run`, which implements the
specified `oldVersion < version` policy, runs it; the step list is non-empty,
so a fresh store ends up with no schema at all. -/
theorem migrar_skips_step_after_old_version :
    DB.migrar
      (DB.buildFrom "db" 1 [⟨0, [SchemaTask.new_table "cats" "id" true []]⟩]) 0
      = [] ∧
    Migration.run
      (DB.buildFrom "db" 1
        [⟨0, [SchemaTask.new_table "cats" "id" true []]⟩]).migrations 0 =
      (DB.buildFrom "db" 1
        [⟨0, [SchemaTask.new_table "cats" "id" true []]⟩]).migrations ∧
    (DB.buildFrom "db" 1
      [⟨0, [SchemaTask.new_table "cats" "id" true []]⟩]).migrations ≠ [] := by
  refine ⟨by decide, by decide, by decide⟩

/-- C10: `connect()` throws `'No me asignaste ninguna migración.'` without
opening the store when no migration was appended, and opens the store (at the
current counter version, with the appended migrations driving the upgrade)
when at least one is present. -/
theorem connect_requires_migrations (s : DBState) :
    (s.migrations = [] →
      DB.connect s = Except.error ConnectErr.noMigrations) ∧
    (s.migrations ≠ [] →
      DB.connect s = Except.ok ⟨s.nombre, s.version, s.migrations⟩) := by
  constructor
  · intro h
    rw [DB.connect, h]
    rfl
  · intro h
    rw [DB.connect, if_pos (List.length_pos.mpr h)]

/-- Witness for C10: a DB with no migrations fails to connect; one with a
migration connects. -/
theorem connect_requires_migrations_witness :
    DB.connect ⟨"d", 0, []⟩ = Except.error ConnectErr.noMigrations ∧
    DB.connect ⟨"d", 1, [⟨0, []⟩]⟩ = Except.ok ⟨"d", 1, [⟨0, []⟩]⟩ :=
  ⟨(connect_requires_migrations ⟨"d", 0, []⟩).1 rfl,
   (connect_requires_migrations ⟨"d", 1, [⟨0, []⟩]⟩).2 (by decide)⟩

/-- The registration errors `MetaData.registerClass` throws: the class does
not extend `Model`, or leaves the static `table` / `class` at the base
placeholder. -/
inductive ConfigErr where
  | notAModelClass
  | tablePlaceholder
  | classPlaceholder
deriving DecidableEq

/-- The statics of a candidate record type, as `registerClass` observes them:
whether `clase.prototype instanceof Model`; the value of the static
`table_name` / `class_name` getters (`none` models leaving the base
placeholder undefined — a genuine subclass that does not override the getter
reports the string `"Model"`, and both cases take the same error branch); the
static `indexes` property (`none` unless the class itself declares one — no
code in the source ever assigns it); and a tag distinguishing distinct type
objects. -/
structure ModelClass where
  extendsModel : Bool
  table_name : Option String
  class_name : Option String
  indexes : Option (List String)
  tag : Nat
deriving DecidableEq

/-- `MetaData.clases`: the insertion-ordered string-keyed map of registered
classes. -/
abbrev Registry : Type := List (String × ModelClass)

/-- JS `Map.prototype.set`: replace in place when the key exists, else append. -/
def Registry.set (reg : Registry) (k : String) (v : ModelClass) : Registry :=
  if reg.any (fun p => p.1 == k) then
    reg.map (fun p => if p.1 == k then (k, v) else p)
  else reg ++ [(k, v)]

/-- `MetaData.getClass(name)`: JS `Map.prototype.get`. -/
def Registry.getClass (reg : Registry) (name : String) : Option ModelClass :=
  (reg.find? (fun p => p.1 == name)).map (fun p => p.2)

/-- `MetaData.registerClass(clase)`: validate `prototype instanceof Model`,
then the `table_name` placeholder (`localeCompare('Model') !== 0`), then the
`class_name` placeholder, and finally `this.clases.set(clase.class_name,
clase)` — with no check whatsoever that the class name is not registered
already. -/
def MetaData.registerClass (reg : Registry) (clase : ModelClass) :
    Except ConfigErr Registry :=
  if clase.extendsModel then
    match clase.table_name with
    | some tn =>
      if tn ≠ "Model" then
        match clase.class_name with
        | some cn =>
          if cn ≠ "Model" then Except.ok (Registry.set reg cn clase)
          else Except.error ConfigErr.classPlaceholder
        | none => Except.error ConfigErr.classPlaceholder
      else Except.error ConfigErr.tablePlaceholder
    | none => Except.error ConfigErr.tablePlaceholder
  else Except.error ConfigErr.notAModelClass

/-- A registered type declaring table `cats`, class name `Cat`. -/
def catA : ModelClass := ⟨true, some "cats", some "Cat", none, 0⟩

/-- A distinct type (different table and identity) declaring the same class
name `Cat`. -/
def catB : ModelClass := ⟨true, some "gatos", some "Cat", none, 1⟩

/-- C3 counterexample: registering a second, distinct type under the
already-registered class name `Cat` does not fail — `Map.set` silently
replaces the earlier entry. -/
theorem registerClass_duplicate_overwrites :
    catA ≠ catB ∧
    MetaData.registerClass [("Cat", catA)] catB = Except.ok [("Cat", catB)] := by
  refine ⟨by decide, rfl⟩

/-- C3 amended: `register(type)` fails with a configuration error at
registration time whenever the type does not extend the base type or leaves
the table-name or class-name at the base placeholder `Model` (or undefined);
on success the type is inserted under its class name, silently replacing any
type previously registered under that name — duplicate class names are not
detected. -/
theorem registerClass_spec (reg : Registry) (clase : ModelClass) :
    (clase.extendsModel = false →
      MetaData.registerClass reg clase = Except.error ConfigErr.notAModelClass) ∧
    (clase.extendsModel = true →
      (clase.table_name = none ∨ clase.table_name = some "Model") →
      MetaData.registerClass reg clase =
        Except.error ConfigErr.tablePlaceholder) ∧
    (∀ tn, clase.extendsModel = true → clase.table_name = some tn →
      tn ≠ "Model" → (clase.class_name = none ∨ clase.class_name = some "Model") →
      MetaData.registerClass reg clase =
        Except.error ConfigErr.classPlaceholder) ∧
    (∀ tn cn, clase.extendsModel = true → clase.table_name = some tn →
      tn ≠ "Model" → clase.class_name = some cn → cn ≠ "Model" →
      MetaData.registerClass reg clase =
        Except.ok (Registry.set reg cn clase)) := by
  refine ⟨?_, ?_, ?_, ?_⟩
  · intro h
    simp [MetaData.registerClass, h]
  · intro hx hor
    rcases hor with h | h <;> simp [MetaData.registerClass, hx, h]
  · intro tn hx htn htnm hor
    rcases hor with h | h <;> simp [MetaData.registerClass, hx, htn, htnm, h]
  · intro tn cn hx htn htnm hcn hcnm
    simp [MetaData.registerClass, hx, htn, htnm, hcn, hcnm]

/-- Witness for C3 (amended): registering `catA` into the empty registry
succeeds and inserts it under `Cat`. -/
theorem registerClass_spec_witness :
    MetaData.registerClass [] catA = Except.ok (Registry.set [] "Cat" catA) :=
  (registerClass_spec [] catA).2.2.2 "cats" "Cat" rfl rfl (by decide) rfl
    (by decide)

/-- The static `table` getter resolved through the prototype chain: the
declared override, or the base placeholder `Model`. -/
def ModelClass.table (c : ModelClass) : String :=
  c.table_name.getD "Model"

/-- `MigrationVersion.newTable(model, key, autoincrement, indexes)`: build the
`new_table` task — a `Model` subclass passed as `model` contributes
`model.table`, a plain string is itself the table name — and push it onto the
step's own task list. (A class argument that does not extend `Model` would
store the class object itself as the table name; the embedding covers the two
meaningful argument shapes.) -/
def MigrationVersion.newTable (mv : MigrationVersion)
    (tableRef : ModelClass ⊕ String) (key : String) (autoincrement : Bool)
    (indexes : List String) : MigrationVersion :=
  let tbl := match tableRef with
    | Sum.inl c => ModelClass.table c
    | Sum.inr s => s
  { mv with
    tasks := mv.tasks ++ [SchemaTask.new_table tbl key autoincrement indexes] }

/-- `newTable` with the registry state carried alongside: the source body
reads and writes only the step's own `#_tasks` — there is no code path from
`MigrationVersion.newTable` into `MetaData` — so the registry passes through
untouched. -/
def MigrationVersion.newTableReg (reg : Registry) (mv : MigrationVersion)
    (tableRef : ModelClass ⊕ String) (key : String) (autoincrement : Bool)
    (indexes : List String) : Registry × MigrationVersion :=
  (reg, MigrationVersion.newTable mv tableRef key autoincrement indexes)

/-- C7 counterexample: calling `newTable` with registered type `Cat` as
`tableRef` and declared index set `["color"]` leaves `Cat`'s registry entry
exactly as it was — its index set is still unset, not the union `["color"]`
the claim requires. -/
theorem newTable_registry_unchanged_cex :
    (MigrationVersion.newTableReg [("Cat", catA)] ⟨0, []⟩ (Sum.inl catA) "id"
      true ["color"]).1 = [("Cat", catA)] ∧
    Registry.getClass
      (MigrationVersion.newTableReg [("Cat", catA)] ⟨0, []⟩ (Sum.inl catA) "id"
        true ["color"]).1 "Cat" = some catA ∧
    catA.indexes ≠ some ["color"] := by
  refine ⟨rfl, by decide, by decide⟩

/-- C7 amended: `newTable` appends exactly one `NewTable` task — carrying the
resolved table name, key, autoincrement flag and declared index list — to the
step's task list, and leaves the registry (in particular every entry's index
set) unchanged; the index set consumed by `generateMagicMethods` must come
from the type's own static declaration, not from migrations. -/
theorem newTable_spec (reg : Registry) (mv : MigrationVersion)
    (tableRef : ModelClass ⊕ String) (key : String) (autoincrement : Bool)
    (indexes : List String) :
    (MigrationVersion.newTableReg reg mv tableRef key autoincrement indexes).1
      = reg ∧
    (MigrationVersion.newTableReg reg mv tableRef key autoincrement
      indexes).2.version = mv.version ∧
    (MigrationVersion.newTableReg reg mv tableRef key autoincrement
      indexes).2.tasks = mv.tasks ++ [SchemaTask.new_table
        (match tableRef with
         | Sum.inl c => ModelClass.table c
         | Sum.inr s => s) key autoincrement indexes] :=
  ⟨rfl, rfl, rfl⟩

/-- The error the static `db` setter throws on a receiver that neither is
`Model` nor has `Model` in its prototype chain. -/
inductive BindErr where
  | notAModelFamily
deriving DecidableEq

/-- The own `_db` properties of the static side of the class hierarchy: the
one on the `Model` constructor itself, the ones on each registered class
(keyed by class name), and the ones on derived copies produced by
`Object.create` (keyed by a copy identity). A store reference is a `Nat`
identifying a `DB` instance. -/
structure Heap where
  modelDb : Option Nat
  classDb : List (String × Nat)
  copyDb : List (Nat × Nat)
deriving DecidableEq

/-- A receiver of the static `db` accessors: the `Model` constructor, a class
extending it, or an `Object.create` copy of such a class. -/
inductive JsObj where
  | model
  | cls (name : String)
  | copyOf (ident : Nat) (proto : String)
deriving DecidableEq

/-- Writing an own property: replace the entry if the key is present, else
append it. -/
def setOwn {κ : Type} [BEq κ] : List (κ × Nat) → κ → Nat → List (κ × Nat)
  | [], k, d => [(k, d)]
  | p :: ps, k, d => if p.1 == k then (k, d) :: ps else p :: setOwn ps k d

/-- Reading an own property. -/
def lookupOwn {κ : Type} [BEq κ] : List (κ × Nat) → κ → Option Nat
  | [], _ => none
  | p :: ps, k => if p.1 == k then some p.2 else lookupOwn ps k

/-- `MetaData.setDB(db)`: assign `clase.db = db` for every registered class —
each assignment runs the static setter on that class, writing its own
`_db`. -/
def MetaData.setDBAll (registered : List String) (h : Heap) (d : Nat) : Heap :=
  { h with classDb := registered.foldl (fun acc c => setOwn acc c d) h.classDb }

/-- `static set db(db)` with receiver `recv` (the store argument is a genuine
`DB` instance by typing, so the `db instanceof DB` guard passes): on `Model`
itself it rebinds every registered class and then `Model._db`; on a class or
copy whose prototype chain reaches `Model` (`isModelSub`) it writes that
receiver's own `_db`; otherwise it throws. -/
def Model.dbSetter (registered : List String) (isModelSub : String → Bool)
    (h : Heap) (recv : JsObj) (d : Nat) : Except BindErr Heap :=
  match recv with
  | JsObj.model =>
    Except.ok { (MetaData.setDBAll registered h d) with modelDb := some d }
  | JsObj.cls c =>
    if isModelSub c then Except.ok { h with classDb := setOwn h.classDb c d }
    else Except.error BindErr.notAModelFamily
  | JsObj.copyOf i c =>
    if isModelSub c then Except.ok { h with copyDb := setOwn h.copyDb i d }
    else Except.error BindErr.notAModelFamily

/-- `static get db` without the final throw: the `_db` visible from a
receiver, resolved along the prototype chain (copy → its class → `Model`);
`none` models the unbound case in which the getter would throw. -/
def Heap.getDb (h : Heap) : JsObj → Option Nat
  | JsObj.model => h.modelDb
  | JsObj.cls c => (lookupOwn h.classDb c).orElse (fun _ => h.modelDb)
  | JsObj.copyOf i c =>
    (lookupOwn h.copyDb i).orElse (fun _ =>
      (lookupOwn h.classDb c).orElse (fun _ => h.modelDb))

/-- `Model.setDB(db)` (static) invoked on class `u`:
`let copy = Object.create(this); copy.db = db; return copy;` — the fresh copy
inherits from `u`, and the property write `copy.db = db` dispatches the
static setter with the copy as receiver. -/
def Model.setDB (registered : List String) (isModelSub : String → Bool)
    (h : Heap) (u : String) (fresh : Nat) (d : Nat) :
    Except BindErr (Heap × JsObj) :=
  (Model.dbSetter registered isModelSub h (JsObj.copyOf fresh u) d).map
    (fun h2 => (h2, JsObj.copyOf fresh u))

theorem lookupOwn_setOwn_self {κ : Type} [BEq κ] [LawfulBEq κ]
    (l : List (κ × Nat)) (k : κ) (d : Nat) :
    lookupOwn (setOwn l k d) k = some d := by
  induction l with
  | nil => simp [setOwn, lookupOwn]
  | cons p ps ih =>
    by_cases hp : p.1 == k
    · simp [setOwn, lookupOwn, hp]
    · simp [setOwn, lookupOwn, hp, ih]

/-- C8: binding a store `d` onto one registered class `u` via `setDB` succeeds
and returns a derived copy of `u` holding the new store as its own binding,
while the heap change touches only the copy: the copy sees `d`, every class —
in particular any other registered type `T` and the original `u` — still sees
exactly the binding it saw before, and the shared default `Model._db` and the
per-class own bindings are unchanged. -/
theorem setDB_frame (registered : List String) (isModelSub : String → Bool)
    (h : Heap) (u : String) (fresh : Nat) (d : Nat)
    (hu : isModelSub u = true) :
    Model.setDB registered isModelSub h u fresh d =
      Except.ok ({ h with copyDb := setOwn h.copyDb fresh d },
        JsObj.copyOf fresh u) ∧
    Heap.getDb { h with copyDb := setOwn h.copyDb fresh d }
      (JsObj.copyOf fresh u) = some d ∧
    (∀ c : String,
      Heap.getDb { h with copyDb := setOwn h.copyDb fresh d } (JsObj.cls c) =
        Heap.getDb h (JsObj.cls c)) ∧
    ({ h with copyDb := setOwn h.copyDb fresh d } : Heap).modelDb =
      h.modelDb ∧
    ({ h with copyDb := setOwn h.copyDb fresh d } : Heap).classDb =
      h.classDb := by
  refine ⟨?_, ?_, ?_, rfl, rfl⟩
  · simp [Model.setDB, Model.dbSetter, hu, Except.map]
  · simp [Heap.getDb, lookupOwn_setOwn_self]
  · intro c
    rfl

/-- Witness for C8: `T` and `U` both bound to store 0, then store 1 bound to
`U` alone via a derived copy — the copy sees store 1 and the original `U`
still sees store 0. -/
theorem setDB_frame_witness :
    Heap.getDb ⟨some 0, [("T", 0), ("U", 0)], setOwn [] 0 1⟩
      (JsObj.copyOf 0 "U") = some 1 ∧
    Heap.getDb ⟨some 0, [("T", 0), ("U", 0)], setOwn [] 0 1⟩
      (JsObj.cls "U") =
      Heap.getDb ⟨some 0, [("T", 0), ("U", 0)], []⟩ (JsObj.cls "U") :=
  ⟨(setDB_frame [] (fun _ => true) ⟨some 0, [("T", 0), ("U", 0)], []⟩ "U" 0 1
      rfl).2.1,
   (setDB_frame [] (fun _ => true) ⟨some 0, [("T", 0), ("U", 0)], []⟩ "U" 0 1
      rfl).2.2.1 "U"⟩
